import Mathlib

/-!
Shallow embedding of the persistence layer in `database.py` (class `Database`)
of the To-Do application.

Modelling conventions:
* SQL `TEXT` values are modelled as `List Char` (`Str` below), so that the
  comma join/split performed by the task read path is a plain list operation.
* Each SQLite table is a Lean list of row structures kept in insertion order,
  which for these tables coincides with ascending `rowid`/`id` order, the
  order in which SQLite scans them.
* `AUTOINCREMENT` columns are modelled by `next_*` counters starting at 1.
* The environment services (§6 of the design: clock, random token source and
  one-way password hash) are passed as explicit arguments: `now : Nat` for
  `datetime.now()`, a fresh `token : Str` for `secrets.token_urlsafe(32)` and
  `hash : Str → Str` for `hashlib.sha256(...).hexdigest()`.
* The `sqlite3` connections opened by `database.py` never execute
  `PRAGMA foreign_keys = ON`, so the declared `FOREIGN KEY` clauses are NOT
  enforced at runtime; the embedding reproduces that (no foreign-key checks).
-/

namespace TodoDB

/-- A SQL `TEXT` value, modelled as its character sequence. -/
abbrev Str := List Char

/-- Row of the `users` table: `id`, `username` (UNIQUE), `email` (UNIQUE),
`password_hash`. -/
structure User where
  id : Nat
  username : Str
  email : Str
  password_hash : Str
deriving DecidableEq

/-- Row of the `password_reset_tokens` table: `id`, `user_id`, `token`
(UNIQUE), `expires_at`, `used` (default FALSE). Timestamps are naturals;
SQLite compares the stored ISO strings lexicographically, which agrees with
chronological order. -/
structure ResetToken where
  id : Nat
  user_id : Nat
  token : Str
  expires_at : Nat
  used : Bool
deriving DecidableEq

/-- Row of the `tasks` table. `due_date` keeps the stored `%Y-%m-%d` string
(the read path additionally parses it into a date object, defaulting to
absent on malformed values; no property below depends on that conversion).
`completed` defaults to FALSE. -/
structure Task where
  id : Nat
  user_id : Nat
  title : Str
  description : Option Str
  category : Option Str
  due_date : Option Str
  priority : Option Str
  completed : Bool
deriving DecidableEq

/-- Row of the `tags` table: `id`, `user_id`, `name`, with
`UNIQUE(user_id, name)`. -/
structure TagRow where
  id : Nat
  user_id : Nat
  name : Str
deriving DecidableEq

/-- Row of the `task_tags` association table, `PRIMARY KEY (task_id, tag_id)`. -/
structure TaskTag where
  task_id : Nat
  tag_id : Nat
deriving DecidableEq

/-- The whole persisted state created by `init_db`: the five tables plus the
`AUTOINCREMENT` counters. -/
structure Store where
  users : List User
  tokens : List ResetToken
  tasks : List Task
  tags : List TagRow
  task_tags : List TaskTag
  next_user_id : Nat
  next_token_id : Nat
  next_task_id : Nat
  next_tag_id : Nat
deriving DecidableEq

/-- The freshly initialised database: all tables empty, `AUTOINCREMENT`
counters at 1. -/
def Store.empty : Store := ⟨[], [], [], [], [], 1, 1, 1, 1⟩

/-- Well-formedness of a store, as guaranteed by the schema constraints and
the insertion discipline of `database.py`: ids are positive, below their
`AUTOINCREMENT` counter and duplicate-free, the `UNIQUE` columns
(`users.username`, `users.email`, `password_reset_tokens.token`,
`tags(user_id, name)`) are duplicate-free, tasks are listed in ascending id
(creation) order, and association rows only mention ids already handed out. -/
def Store.WF (s : Store) : Prop :=
  (∀ u ∈ s.users, 0 < u.id ∧ u.id < s.next_user_id) ∧
  (s.users.map User.id).Nodup ∧
  (s.users.map User.username).Nodup ∧
  (s.users.map User.email).Nodup ∧
  (s.tokens.map ResetToken.token).Nodup ∧
  (s.tasks.map Task.id).Pairwise (· < ·) ∧
  (∀ t ∈ s.tasks, 0 < t.id ∧ t.id < s.next_task_id) ∧
  (s.tags.map TagRow.id).Nodup ∧
  (∀ t ∈ s.tags, t.id < s.next_tag_id) ∧
  (∀ t₁ ∈ s.tags, ∀ t₂ ∈ s.tags, t₁.user_id = t₂.user_id → t₁.name = t₂.name → t₁ = t₂) ∧
  (∀ l ∈ s.task_tags, l.task_id < s.next_task_id ∧ l.tag_id < s.next_tag_id)

instance decidableWF (s : Store) : Decidable s.WF := by
  unfold Store.WF
  infer_instance

/-- `create_user(username, email, password)`: hashes the password and inserts
the row; a `UNIQUE` violation on `username` or `email` raises
`sqlite3.IntegrityError`, which is caught and turned into `False` with the
table unchanged. -/
def create_user (hash : Str → Str) (username email password : Str) (s : Store) :
    Bool × Store :=
  if ∃ u ∈ s.users, u.username = username ∨ u.email = email then
    (false, s)
  else
    (true,
     { s with
       users := s.users ++ [⟨s.next_user_id, username, email, hash password⟩],
       next_user_id := s.next_user_id + 1 })

/-- `verify_user(identifier, password)`: `SELECT id FROM users WHERE
(username = ? OR email = ?) AND password_hash = ?` followed by `fetchone()`,
i.e. the first matching row in scan order, its id returned, else `None`. -/
def verify_user (hash : Str → Str) (identifier password : Str) (s : Store) :
    Option Nat :=
  (s.users.find? fun u =>
    decide ((u.username = identifier ∨ u.email = identifier) ∧
      u.password_hash = hash password)).map User.id

/-- `get_user_by_id(user_id)`: point lookup, `None` when absent. -/
def get_user_by_id (user_id : Nat) (s : Store) : Option User :=
  s.users.find? fun u => decide (u.id = user_id)

/-- `get_user_by_email(email)`: point lookup, `None` when absent. -/
def get_user_by_email (email : Str) (s : Store) : Option User :=
  s.users.find? fun u => decide (u.email = email)

/-- `get_all_tags(user_id)`: `SELECT name FROM tags WHERE user_id = ?` —
every tag name ever created for this user, whether or not still linked. -/
def get_all_tags (user_id : Nat) (s : Store) : List Str :=
  (s.tags.filter fun t => decide (t.user_id = user_id)).map TagRow.name

/-- The task payload accepted by `add_task`: `title` is required
(`task_data["title"]`), the remaining fields are optional
(`task_data.get(...)`), `tags` defaults to the empty list. `due_date` is
already in its stored `%Y-%m-%d` string form. -/
structure TaskData where
  title : Str
  description : Option Str
  category : Option Str
  due_date : Option Str
  priority : Option Str
  tags : List Str
deriving DecidableEq

/-- The `INSERT OR IGNORE INTO tags (user_id, name)` statement of the tag
loop: a no-op when the `UNIQUE(user_id, name)` row already exists, an insert
with the next id otherwise. -/
def ensureTag (user_id : Nat) (tag_name : Str) (s : Store) : Store :=
  if ∃ t ∈ s.tags, t.user_id = user_id ∧ t.name = tag_name then s
  else
    { s with
      tags := s.tags ++ [⟨s.next_tag_id, user_id, tag_name⟩],
      next_tag_id := s.next_tag_id + 1 }

/-- One iteration of the tag loop of `add_task`: the `INSERT OR IGNORE` of
`ensureTag`, then `SELECT id FROM tags WHERE user_id = ? AND name = ?`
(`fetchone()[0]`), then `INSERT OR IGNORE INTO task_tags (task_id, tag_id)`.
The `none` branch of the match is unreachable: the row it looks up was just
ensured to exist. -/
def addTagLink (user_id task_id : Nat) (tag_name : Str) (s : Store) : Store :=
  let s₁ := ensureTag user_id tag_name s
  match s₁.tags.find? fun t => decide (t.user_id = user_id ∧ t.name = tag_name) with
  | none => s₁
  | some t =>
    if ∃ l ∈ s₁.task_tags, l.task_id = task_id ∧ l.tag_id = t.id then s₁
    else { s₁ with task_tags := s₁.task_tags ++ [⟨task_id, t.id⟩] }

/-- `add_task(user_id, task_data)`: inserts the task row (`completed`
defaulting to FALSE), remembers `cursor.lastrowid`, then runs the
get-or-create-and-link loop over `task_data["tags"]` and returns the new id.
No foreign-key check on `user_id` happens: the connection leaves SQLite's
`foreign_keys` pragma at its default OFF. -/
def add_task (user_id : Nat) (d : TaskData) (s : Store) : Option Nat × Store :=
  let task_id := s.next_task_id
  let s₁ : Store :=
    { s with
      tasks := s.tasks ++
        [⟨task_id, user_id, d.title, d.description, d.category, d.due_date,
          d.priority, false⟩],
      next_task_id := s.next_task_id + 1 }
  (some task_id, d.tags.foldl (fun acc n => addTagLink user_id task_id n acc) s₁)

/-- Comma join performed by SQL `GROUP_CONCAT(tg.name)` over the linked tag
names (its default separator is a comma); yields the empty string on no
input, matching the `NULL` that the Python side replaces by `[]`. -/
def joinComma : List Str → Str
  | [] => []
  | [n] => n
  | n :: ns => n ++ ',' :: joinComma ns

/-- Comma split performed by Python `row[7].split(",")`: splits at every
comma, keeping empty pieces, and maps the empty string to `[[]]` exactly as
`"".split(",") == [""]`. -/
def splitComma : Str → List Str
  | [] => [[]]
  | c :: rest =>
    if c = ',' then [] :: splitComma rest
    else
      match splitComma rest with
      | [] => [[c]]
      | p :: ps => (c :: p) :: ps

/-- The `tags` entry of a returned task dict:
`row[7].split(",") if row[7] else []` applied to the `GROUP_CONCAT` result
(`NULL`, i.e. no linked names, and the empty string are both falsy). -/
def tagsField (names : List Str) : List Str :=
  let c := joinComma names
  if c = [] then [] else splitComma c

/-- The tag names linked to a task, in the order produced by the double
`LEFT JOIN` of `get_tasks`: for each `task_tags` row of this task, the names
of the `tags` rows carrying its `tag_id` (a dangling link contributes a
`NULL` name, which `GROUP_CONCAT` skips — here the empty join result). -/
def linkedNames (s : Store) (task_id : Nat) : List Str :=
  (s.task_tags.filter fun l => decide (l.task_id = task_id)).flatMap fun l =>
    (s.tags.filter fun t => decide (t.id = l.tag_id)).map TagRow.name

/-- The task dict built by `get_tasks` for one row of the grouped query. -/
structure TaskView where
  id : Nat
  title : Str
  description : Option Str
  category : Option Str
  due_date : Option Str
  priority : Option Str
  completed : Bool
  tags : List Str
deriving DecidableEq

/-- The row-to-dict conversion of `get_tasks` for a single task. -/
def taskView (s : Store) (t : Task) : TaskView :=
  ⟨t.id, t.title, t.description, t.category, t.due_date, t.priority,
   t.completed, tagsField (linkedNames s t.id)⟩

/-- `get_tasks(user_id)`: the grouped join filtered by `user_id`. SQLite
returns the `GROUP BY t.id` groups in ascending `t.id` order (the scan order
of the `tasks` b-tree), which is the insertion order of `tasks` here. -/
def get_tasks (user_id : Nat) (s : Store) : List TaskView :=
  (s.tasks.filter fun t => decide (t.user_id = user_id)).map (taskView s)

/-- One key/value pair of the `task_data` dict passed to `update_task`. The
recognised column names are `title`, `description`, `category`, `due_date`,
`priority` and `completed`; any other key — `tags` being the one the UI
actually sends — is silently dropped by the `if key in [...]` filter. -/
inductive UpdateField where
  | title (v : Str)
  | description (v : Option Str)
  | category (v : Option Str)
  | due_date (v : Option Str)
  | priority (v : Option Str)
  | completed (v : Bool)
  | tags (v : List Str)
deriving DecidableEq

/-- Whether the dict key survives the `if key in ["title", "description",
"category", "due_date", "priority", "completed"]` test of `update_task`. -/
def UpdateField.recognized : UpdateField → Bool
  | .tags _ => false
  | _ => true

/-- Effect of one `SET key = ?` assignment on a task row. The `tags` case is
never executed: that key is filtered out before the SQL is built. -/
def applyField (t : Task) : UpdateField → Task
  | .title v => { t with title := v }
  | .description v => { t with description := v }
  | .category v => { t with category := v }
  | .due_date v => { t with due_date := v }
  | .priority v => { t with priority := v }
  | .completed v => { t with completed := v }
  | .tags _ => t

/-- `update_task(task_id, user_id, task_data)`: returns `False` on an empty
dict or when no recognised column survives the key filter; otherwise runs
`UPDATE tasks SET ... WHERE id = ? AND user_id = ?` and returns `True`
unconditionally — the row count is never inspected, so `True` comes back
even when no row matched. -/
def update_task (task_id user_id : Nat) (task_data : List UpdateField)
    (s : Store) : Bool × Store :=
  if task_data = [] then (false, s)
  else
    let set_parts := task_data.filter UpdateField.recognized
    if set_parts = [] then (false, s)
    else
      (true,
       { s with
         tasks := s.tasks.map fun t =>
           if t.id = task_id ∧ t.user_id = user_id then
             set_parts.foldl applyField t
           else t })

/-- `delete_task(task_id, user_id)`: `DELETE FROM tasks WHERE id = ? AND
user_id = ?`, then `cursor.rowcount > 0`. Only the `tasks` table is touched:
nothing cascades to `task_tags` (the schema has no `ON DELETE` action and the
foreign-key pragma is off anyway). -/
def delete_task (task_id user_id : Nat) (s : Store) : Bool × Store :=
  ((s.tasks.any fun t => decide (t.id = task_id ∧ t.user_id = user_id)),
   { s with
     tasks := s.tasks.filter fun t =>
       !decide (t.id = task_id ∧ t.user_id = user_id) })

/-- The fixed validity window of a reset token: `timedelta(hours=24)`,
in seconds. -/
def tokenValiditySeconds : Nat := 24 * 60 * 60

/-- `create_password_reset_token(email)`: looks the user up by email
(`None` when absent), then inserts a token row expiring 24 hours from now
with `used` defaulting to FALSE and returns the token string. The freshly
generated random token is assumed not to collide with a stored one (`token`
is `UNIQUE`; a collision would raise an uncaught `IntegrityError`). -/
def create_password_reset_token (email token : Str) (now : Nat) (s : Store) :
    Option Str × Store :=
  match s.users.find? fun u => decide (u.email = email) with
  | none => (none, s)
  | some u =>
    (some token,
     { s with
       tokens := s.tokens ++
         [⟨s.next_token_id, u.id, token, now + tokenValiditySeconds, false⟩],
       next_token_id := s.next_token_id + 1 })

/-- `verify_reset_token(token)`: `SELECT user_id FROM password_reset_tokens
WHERE token = ? AND expires_at > ? AND used = FALSE` with `fetchone()`;
returns the owning `user_id` or `None`. -/
def verify_reset_token (token : Str) (now : Nat) (s : Store) : Option Nat :=
  (s.tokens.find? fun r =>
    decide (r.token = token ∧ now < r.expires_at ∧ r.used = false)).map
    ResetToken.user_id

/-- `reset_password(token, new_password)`: validates the token via
`verify_reset_token` (the Python guard `if not user_id` also treats a zero
id as invalid), then updates the owner's `password_hash`, marks every token
row carrying this token string as used, commits and returns `True`; on an
invalid, expired or used token it returns `False` with the store unchanged. -/
def reset_password (hash : Str → Str) (token new_password : Str) (now : Nat)
    (s : Store) : Bool × Store :=
  match verify_reset_token token now s with
  | none => (false, s)
  | some user_id =>
    if user_id = 0 then (false, s)
    else
      (true,
       { s with
         users := s.users.map fun u =>
           if u.id = user_id then { u with password_hash := hash new_password }
           else u,
         tokens := s.tokens.map fun r =>
           if r.token = token then { r with used := true } else r })

/-- The part of `Store.WF` that the tag loop of `add_task` maintains: tag ids
are duplicate-free and below the counter, `(user_id, name)` is unique, and
association rows only mention tag ids already handed out. -/
def TagInv (s : Store) : Prop :=
  (s.tags.map TagRow.id).Nodup ∧
  (∀ t ∈ s.tags, t.id < s.next_tag_id) ∧
  (∀ t₁ ∈ s.tags, ∀ t₂ ∈ s.tags, t₁.user_id = t₂.user_id → t₁.name = t₂.name → t₁ = t₂) ∧
  (∀ l ∈ s.task_tags, l.tag_id < s.next_tag_id)

/-- A concrete stand-in for the environment's one-way hash, used to
instantiate the theorems below on closed inputs. -/
def exampleHash : Str → Str := fun s => 'h' :: s

/-- A store holding one registered account (`id` 1). -/
def exampleUserStore : Store :=
  (create_user exampleHash ['a'] ['e'] ['p'] Store.empty).2

/-- `exampleUserStore` after account 1 created a task tagged `"a"`. -/
def exampleTagged : Store :=
  (add_task 1 ⟨['t'], none, none, none, none, [['a']]⟩ exampleUserStore).2

/-- `exampleUserStore` after account 1 created a task with the single
comma-containing tag name `"a,b"`. -/
def exampleCommaTagged : Store :=
  (add_task 1 ⟨['m'], none, none, none, none, [['a', ',', 'b']]⟩ exampleUserStore).2

/-- `exampleUserStore` after a reset token `"T"` was issued at time 100 for
the account's email. -/
def exampleResetStore : Store :=
  (create_password_reset_token ['e'] ['T'] 100 exampleUserStore).2

/-! ### Facts about the comma join/split pair of the task read path -/

theorem splitComma_cons (c : Char) (rest : Str) :
    splitComma (c :: rest) =
      if c = ',' then [] :: splitComma rest
      else
        match splitComma rest with
        | [] => [[c]]
        | p :: ps => (c :: p) :: ps := rfl

theorem splitComma_ne_nil (a : Str) : splitComma a ≠ [] := by
  cases a with
  | nil => simp [splitComma]
  | cons c rest =>
    rw [splitComma_cons]
    split
    · simp
    · split <;> simp

theorem splitComma_cons_comma (rest : Str) :
    splitComma (',' :: rest) = [] :: splitComma rest := by
  rw [splitComma_cons, if_pos rfl]

theorem splitComma_cons_ne {c : Char} (hc : c ≠ ',') {rest p : Str}
    {ps : List Str} (hrest : splitComma rest = p :: ps) :
    splitComma (c :: rest) = (c :: p) :: ps := by
  rw [splitComma_cons, if_neg hc, hrest]

theorem splitComma_append_comma (a b : Str) :
    splitComma (a ++ ',' :: b) = splitComma a ++ splitComma b := by
  induction a with
  | nil => simp [splitComma_cons_comma, splitComma]
  | cons c a ih =>
    by_cases hc : c = ','
    · subst hc
      rw [List.cons_append, splitComma_cons_comma, splitComma_cons_comma, ih,
        List.cons_append]
    · obtain ⟨p, ps, hps⟩ := List.exists_cons_of_ne_nil (splitComma_ne_nil a)
      have ih' : splitComma (a ++ ',' :: b) = p :: (ps ++ splitComma b) := by
        rw [ih, hps]; rfl
      rw [List.cons_append, splitComma_cons_ne hc ih', splitComma_cons_ne hc hps,
        List.cons_append]

theorem splitComma_of_no_comma {a : Str} (h : ',' ∉ a) : splitComma a = [a] := by
  induction a with
  | nil => rfl
  | cons c a ih =>
    have hc : c ≠ ',' := fun he => h (he ▸ List.mem_cons_self c a)
    exact splitComma_cons_ne hc (ih fun hm => h (List.mem_cons_of_mem c hm))

theorem splitComma_mem_no_comma {a p : Str} (hp : p ∈ splitComma a) : ',' ∉ p := by
  induction a generalizing p with
  | nil =>
    rw [show splitComma [] = [[]] from rfl] at hp
    obtain rfl := List.mem_singleton.mp hp
    simp
  | cons c a ih =>
    by_cases hc : c = ','
    · subst hc
      rw [splitComma_cons_comma] at hp
      rcases List.mem_cons.mp hp with rfl | h
      · simp
      · exact ih h
    · obtain ⟨q, qs, hqs⟩ := List.exists_cons_of_ne_nil (splitComma_ne_nil a)
      rw [splitComma_cons_ne hc hqs] at hp
      rcases List.mem_cons.mp hp with rfl | h
      · intro hm
        rcases List.mem_cons.mp hm with he | hm'
        · exact hc he.symm
        · exact ih (hqs ▸ List.mem_cons_self q qs) hm'
      · exact ih (hqs ▸ List.mem_cons_of_mem q h)

theorem joinComma_cons (n m : Str) (ns : List Str) :
    joinComma (n :: m :: ns) = n ++ ',' :: joinComma (m :: ns) := rfl

theorem joinComma_eq_nil_iff (ns : List Str) :
    joinComma ns = [] ↔ ns = [] ∨ ns = [[]] := by
  match ns with
  | [] => simp [joinComma]
  | [n] => simp [joinComma]
  | n :: m :: ns => simp [joinComma_cons]

theorem splitComma_joinComma {ns : List Str} (h : ns ≠ []) :
    splitComma (joinComma ns) = ns.flatMap splitComma := by
  match ns with
  | [n] => simp [joinComma]
  | n :: m :: ns =>
    rw [joinComma_cons, splitComma_append_comma,
      splitComma_joinComma (List.cons_ne_nil m ns)]
    simp [List.flatMap_cons]

theorem flatMap_splitComma_eq_self {ns : List Str} (h : ∀ n ∈ ns, ',' ∉ n) :
    ns.flatMap splitComma = ns := by
  induction ns with
  | nil => rfl
  | cons n ns ih =>
    rw [List.flatMap_cons, splitComma_of_no_comma (h n (List.mem_cons_self n ns)),
      ih fun m hm => h m (List.mem_cons_of_mem n hm)]
    rfl

theorem tagsField_eq_self {ns : List Str} (h : ∀ n ∈ ns, n ≠ [] ∧ ',' ∉ n) :
    tagsField ns = ns := by
  rcases eq_or_ne ns [] with rfl | hns
  · rfl
  · have hjoin : joinComma ns ≠ [] := by
      intro he
      rcases (joinComma_eq_nil_iff ns).mp he with rfl | rfl
      · exact hns rfl
      · exact (h [] (List.mem_cons_self [] [])).1 rfl
    unfold tagsField
    rw [if_neg hjoin, splitComma_joinComma hns,
      flatMap_splitComma_eq_self fun n hn => (h n hn).2]

/-! ### Generic list fact used to resolve tag ids through the join -/

theorem filter_eq_single_of_nodup_map {α β : Type} [DecidableEq β] (f : α → β)
    {l : List α} (h : (l.map f).Nodup) {a : α} (ha : a ∈ l) :
    l.filter (fun x => decide (f x = f a)) = [a] := by
  induction l with
  | nil => cases ha
  | cons b l ih =>
    rw [List.map_cons, List.nodup_cons] at h
    rcases List.mem_cons.mp ha with rfl | ha'
    · rw [List.filter_cons_of_pos (by simp)]
      have hnil : l.filter (fun x => decide (f x = f a)) = [] := by
        rw [List.filter_eq_nil_iff]
        intro x hx hfx
        exact h.1 ((decide_eq_true_iff.mp hfx) ▸ List.mem_map_of_mem f hx)
      rw [hnil]
    · have hba : f b ≠ f a := fun he => h.1 (he ▸ List.mem_map_of_mem f ha')
      rw [List.filter_cons_of_neg (by simp [hba])]
      exact ih h.2 ha'

/-! ### C2: `update_task` and tag lists -/

/-- C2 (code divergence): `update_task` never touches the `tags` or
`task_tags` tables — a supplied tag list is filtered out as an unrecognised
column — so prior tag links survive any update; concretely, updating the
task of `exampleTagged` (tagged `"a"`) with the tag list `["b"]` returns
false, changes nothing, and the next read still shows tag set `{"a"}`. -/
theorem update_task_ignores_tags :
    (∀ task_id user_id data s,
      (update_task task_id user_id data s).2.tags = s.tags ∧
      (update_task task_id user_id data s).2.task_tags = s.task_tags) ∧
    (update_task 1 1 [UpdateField.tags [['b']]] exampleTagged).1 = false ∧
    (update_task 1 1 [UpdateField.tags [['b']]] exampleTagged).2 = exampleTagged ∧
    (get_tasks 1 exampleTagged).map TaskView.tags = [[['a']]] := by
  refine ⟨fun task_id user_id data s => ?_, by decide, by decide, by decide⟩
  by_cases h0 : data = []
  · simp [update_task, h0]
  · by_cases h1 : data.filter UpdateField.recognized = []
    · simp [update_task, h0, h1]
    · simp [update_task, h0, h1]

/-! ### C3: result value of `update_task` -/

/-- C3 counterexample: the empty store has no task matching `(1, 1)`, yet
`update_task` with a recognised field returns true — the row count is never
consulted. -/
theorem update_task_true_on_no_match :
    (∀ t ∈ Store.empty.tasks, ¬(t.id = 1 ∧ t.user_id = 1)) ∧
    (update_task 1 1 [UpdateField.completed true] Store.empty).1 = true := by
  decide

/-- C3 (amended): `update_task` returns true exactly when at least one
recognised mutable field survives the key filter, regardless of whether any
row matched `(task_id, account_id)`; with no recognised field it returns
false and leaves the store unchanged. -/
theorem update_task_result_iff (task_id user_id : Nat)
    (data : List UpdateField) (s : Store) :
    ((update_task task_id user_id data s).1 = true ↔
      data.filter UpdateField.recognized ≠ []) ∧
    (data.filter UpdateField.recognized = [] →
      update_task task_id user_id data s = (false, s)) := by
  by_cases h0 : data = []
  · subst h0
    simp [update_task]
  · by_cases h1 : data.filter UpdateField.recognized = []
    · simp [update_task, h0, h1]
    · simp [update_task, h0, h1]

/-- Witness for `update_task_result_iff` on concrete inputs: a tags-only
update comes back false with the store untouched, a `completed` update comes
back true. -/
theorem update_task_result_iff_witness :
    update_task 1 1 [UpdateField.tags [['z']]] exampleUserStore =
      (false, exampleUserStore) ∧
    (update_task 1 1 [UpdateField.completed true] exampleUserStore).1 = true :=
  ⟨(update_task_result_iff 1 1 [UpdateField.tags [['z']]] exampleUserStore).2
      (by decide),
   (update_task_result_iff 1 1 [UpdateField.completed true]
      exampleUserStore).1.mpr (by decide)⟩

/-! ### C4: `delete_task` and association rows -/

/-- C4 counterexample: deleting the tagged task of `exampleTagged` succeeds
and removes the task row, but its `task_tags` row survives and now
references a task id that no longer exists. -/
theorem delete_task_dangling_link :
    (delete_task 1 1 exampleTagged).1 = true ∧
    (delete_task 1 1 exampleTagged).2.tasks = [] ∧
    ∃ l ∈ (delete_task 1 1 exampleTagged).2.task_tags,
      ∀ t ∈ (delete_task 1 1 exampleTagged).2.tasks, t.id ≠ l.task_id := by
  decide

/-- C4 (amended): `delete_task` removes exactly the matching task rows and
touches nothing else — its `TaskTag` links are NOT removed (they may
dangle) and `Tag` rows are not deleted; deleting a nonexistent or foreign
task id returns false without side effects. -/
theorem delete_task_effects (task_id user_id : Nat) (s : Store) :
    (delete_task task_id user_id s).2.task_tags = s.task_tags ∧
    (delete_task task_id user_id s).2.tags = s.tags ∧
    (∀ t ∈ (delete_task task_id user_id s).2.tasks,
      ¬(t.id = task_id ∧ t.user_id = user_id)) ∧
    ((∀ t ∈ s.tasks, ¬(t.id = task_id ∧ t.user_id = user_id)) →
      delete_task task_id user_id s = (false, s)) := by
  refine ⟨rfl, rfl, ?_, ?_⟩
  · intro t ht hcontra
    have hmem := (List.mem_filter.mp ht).2
    simp [hcontra.1, hcontra.2] at hmem
  · intro h
    unfold delete_task
    have hany : (s.tasks.any fun t =>
        decide (t.id = task_id ∧ t.user_id = user_id)) = false := by
      rw [List.any_eq_false]
      intro t ht
      simp [h t ht]
    have hfil : (s.tasks.filter fun t =>
        !decide (t.id = task_id ∧ t.user_id = user_id)) = s.tasks := by
      rw [List.filter_eq_self]
      intro t ht
      simp [h t ht]
    rw [hany, hfil]

/-- Witness for `delete_task_effects`: deleting the absent task id 9 from
`exampleTagged` is a no-op returning false. -/
theorem delete_task_effects_witness :
    delete_task 9 1 exampleTagged = (false, exampleTagged) :=
  (delete_task_effects 9 1 exampleTagged).2.2.2 (by decide)

/-! ### C5: foreign keys are not enforced on task creation -/

/-- C5 (code divergence): on a fresh store with NO accounts at all,
`add_task` for the nonexistent account 7 still inserts the row and returns
the new task id — the declared foreign key is never enforced because the
`sqlite3` connections leave `PRAGMA foreign_keys` OFF. -/
theorem add_task_ignores_foreign_key :
    Store.empty.users = [] ∧
    (add_task 7 ⟨['t'], none, none, none, none, []⟩ Store.empty).1 = some 1 ∧
    ∃ t ∈ (add_task 7 ⟨['t'], none, none, none, none, []⟩ Store.empty).2.tasks,
      t.user_id = 7 := by
  decide

/-! ### C7: duplicate username/email on registration -/

/-- C7: `create_user` fails (false result, store unchanged, the underlying
uniqueness error caught at the boundary) whenever the username or the email
is already taken, and a successful registration makes any second
registration under the same username fail. -/
theorem create_user_conflict (hash : Str → Str)
    (username email password : Str) (s : Store) :
    ((∃ u ∈ s.users, u.username = username ∨ u.email = email) →
      create_user hash username email password s = (false, s)) ∧
    (∀ s' email₂ pw₂, create_user hash username email password s = (true, s') →
      create_user hash username email₂ pw₂ s' = (false, s')) := by
  constructor
  · intro h
    unfold create_user
    rw [if_pos h]
  · intro s' email₂ pw₂ h
    unfold create_user at h
    by_cases hc : ∃ u ∈ s.users, u.username = username ∨ u.email = email
    · rw [if_pos hc] at h
      simp at h
    · rw [if_neg hc] at h
      have hs' : s' = { s with
          users := s.users ++ [⟨s.next_user_id, username, email, hash password⟩],
          next_user_id := s.next_user_id + 1 } := ((Prod.mk.injEq ..).mp h).2.symm
      subst hs'
      have hex : ∃ u ∈ s.users ++ [⟨s.next_user_id, username, email, hash password⟩],
          u.username = username ∨ u.email = email₂ :=
        ⟨⟨s.next_user_id, username, email, hash password⟩, by simp, Or.inl rfl⟩
      unfold create_user
      rw [if_pos hex]

/-- Witness for `create_user_conflict`: in `exampleUserStore` (username
`"a"`, email `"e"`), registering username `"a"` again fails, as does a new
username with the used email `"e"`; and the second conjunct applied to the
original successful registration. -/
theorem create_user_conflict_witness :
    create_user exampleHash ['a'] ['f'] ['q'] exampleUserStore =
      (false, exampleUserStore) ∧
    create_user exampleHash ['b'] ['e'] ['q'] exampleUserStore =
      (false, exampleUserStore) ∧
    create_user exampleHash ['a'] ['g'] ['r'] exampleUserStore =
      (false, exampleUserStore) :=
  ⟨(create_user_conflict exampleHash ['a'] ['f'] ['q'] exampleUserStore).1
      (by decide),
   (create_user_conflict exampleHash ['b'] ['e'] ['q'] exampleUserStore).1
      (by decide),
   (create_user_conflict exampleHash ['a'] ['e'] ['p'] Store.empty).2
      exampleUserStore ['g'] ['r'] (by decide)⟩

/-! ### C6: validity of reset tokens -/

/-- C6: `verify_reset_token` returns the owning account id exactly when a
stored row carries this token string with `used = false` and
`expires_at > now`; in particular an expired or already-used token is
rejected. -/
theorem verify_reset_token_valid_iff (token : Str) (now : Nat) (s : Store)
    (hWF : s.WF) :
    (∀ uid, verify_reset_token token now s = some uid ↔
      ∃ r ∈ s.tokens, r.token = token ∧ r.used = false ∧ now < r.expires_at ∧
        r.user_id = uid) ∧
    (∀ r ∈ s.tokens, r.token = token → (r.used = true ∨ r.expires_at ≤ now) →
      verify_reset_token token now s = none) := by
  obtain ⟨-, -, -, -, htok, -⟩ := hWF
  constructor
  · intro uid
    constructor
    · intro h
      unfold verify_reset_token at h
      obtain ⟨r, hfind, hr⟩ := Option.map_eq_some'.mp h
      have hmem := List.mem_of_find?_eq_some hfind
      have hpred := List.find?_some hfind
      simp only [decide_eq_true_iff] at hpred
      exact ⟨r, hmem, hpred.1, hpred.2.2, hpred.2.1, hr⟩
    · rintro ⟨r, hmem, htok_r, hused, hexp, huid⟩
      unfold verify_reset_token
      have hsome : (s.tokens.find? fun x =>
          decide (x.token = token ∧ now < x.expires_at ∧ x.used = false)).isSome := by
        rw [List.find?_isSome]
        exact ⟨r, hmem, by simp [htok_r, hexp, hused]⟩
      obtain ⟨r', hfind⟩ := Option.isSome_iff_exists.mp hsome
      have hmem' := List.mem_of_find?_eq_some hfind
      have hpred' := List.find?_some hfind
      simp only [decide_eq_true_iff] at hpred'
      have heq : r' = r :=
        List.inj_on_of_nodup_map htok hmem' hmem (by rw [hpred'.1, htok_r])
      rw [hfind, Option.map_some']
      rw [heq, huid]
  · intro r hmem htok_r hbad
    unfold verify_reset_token
    have hnone : (s.tokens.find? fun x =>
        decide (x.token = token ∧ now < x.expires_at ∧ x.used = false)) = none := by
      rw [List.find?_eq_none]
      intro x hx
      simp only [decide_eq_true_iff]
      rintro ⟨hxtok, hxexp, hxused⟩
      have hxr : x = r :=
        List.inj_on_of_nodup_map htok hx hmem (by rw [hxtok, htok_r])
      subst hxr
      rcases hbad with hb | hb
      · rw [hxused] at hb
        cases hb
      · exact absurd hxexp (not_lt.mpr hb)
    rw [hnone]
    rfl

/-- Witness for `verify_reset_token_valid_iff`: the token of
`exampleResetStore` verifies one second after issuance and is rejected at
its exact expiry instant. -/
theorem verify_reset_token_valid_iff_witness :
    verify_reset_token ['T'] 101 exampleResetStore = some 1 ∧
    verify_reset_token ['T'] (100 + tokenValiditySeconds) exampleResetStore =
      none :=
  ⟨((verify_reset_token_valid_iff ['T'] 101 exampleResetStore (by decide)).1
      1).mpr
      ⟨⟨1, 1, ['T'], 100 + tokenValiditySeconds, false⟩, by decide, by decide,
        by decide, by decide, by decide⟩,
   (verify_reset_token_valid_iff ['T'] (100 + tokenValiditySeconds)
      exampleResetStore (by decide)).2
      ⟨1, 1, ['T'], 100 + tokenValiditySeconds, false⟩ (by decide) (by decide)
      (Or.inr (by decide))⟩

/-! ### C1: `reset_password` is all-or-nothing and single-use -/

/-- C1: when `reset_password` returns true the token had just verified, the
owning account's stored hash is now the hash of the new password (so
`verify_user` with the new password succeeds), and every row carrying this
token string is marked used — after which the token never verifies again and
a second `reset_password` with it fails; when the token does not verify the
call returns false, and every false result leaves the store untouched (all
three effects or none). -/
theorem reset_password_transactional (hash : Str → Str)
    (token new_password : Str) (now : Nat) (s : Store) :
    (∀ s', reset_password hash token new_password now s = (true, s') →
      ∃ uid, uid ≠ 0 ∧ verify_reset_token token now s = some uid ∧
        (∀ u ∈ s.users, u.id = uid →
          { u with password_hash := hash new_password } ∈ s'.users ∧
          verify_user hash u.username new_password s' ≠ none) ∧
        (∀ r ∈ s'.tokens, r.token = token → r.used = true) ∧
        (∀ now', verify_reset_token token now' s' = none) ∧
        (∀ pw now', reset_password hash token pw now' s' = (false, s'))) ∧
    (verify_reset_token token now s = none →
      reset_password hash token new_password now s = (false, s)) ∧
    (∀ b s', reset_password hash token new_password now s = (b, s') →
      b = false → s' = s) := by
  refine ⟨?_, ?_, ?_⟩
  · intro s' h
    unfold reset_password at h
    cases hv : verify_reset_token token now s with
    | none =>
      rw [hv] at h
      simp at h
    | some uid =>
      rw [hv] at h
      dsimp only at h
      by_cases h0 : uid = 0
      · rw [if_pos h0] at h
        simp at h
      · rw [if_neg h0] at h
        have hs' : s' = { s with
            users := s.users.map fun u =>
              if u.id = uid then { u with password_hash := hash new_password }
              else u,
            tokens := s.tokens.map fun r =>
              if r.token = token then { r with used := true } else r } :=
          ((Prod.mk.injEq ..).mp h).2.symm
        subst hs'
        have hmark : ∀ r ∈ (s.tokens.map fun r =>
            if r.token = token then { r with used := true } else r),
            r.token = token → r.used = true := by
          intro r hr htr
          obtain ⟨r₀, hr₀, rfl⟩ := List.mem_map.mp hr
          by_cases ht : r₀.token = token
          · rw [if_pos ht]
          · rw [if_neg ht] at htr ⊢
            exact absurd htr ht
        have hnone : ∀ now', verify_reset_token token now'
            { s with
              users := s.users.map fun u =>
                if u.id = uid then { u with password_hash := hash new_password }
                else u,
              tokens := s.tokens.map fun r =>
                if r.token = token then { r with used := true } else r } =
            none := by
          intro now'
          unfold verify_reset_token
          have hfind : ((s.tokens.map fun r =>
              if r.token = token then { r with used := true } else r).find?
              fun x => decide (x.token = token ∧ now' < x.expires_at ∧
                x.used = false)) = none := by
            rw [List.find?_eq_none]
            intro x hx
            simp only [decide_eq_true_iff]
            rintro ⟨hxtok, -, hxused⟩
            have := hmark x hx hxtok
            rw [this] at hxused
            cases hxused
          rw [hfind]
          rfl
        refine ⟨uid, h0, rfl, ?_, hmark, hnone, ?_⟩
        · intro u hu huid
          have hfu : (fun u =>
              if u.id = uid then { u with password_hash := hash new_password }
              else u) u = { u with password_hash := hash new_password } := by
            simp [huid]
          constructor
          · have hmem := List.mem_map_of_mem (fun u =>
              if u.id = uid then { u with password_hash := hash new_password }
              else u) hu
            rw [hfu] at hmem
            exact hmem
          · intro hnone'
            unfold verify_user at hnone'
            rw [Option.map_eq_none'] at hnone'
            rw [List.find?_eq_none] at hnone'
            have hmem := List.mem_map_of_mem (fun u =>
              if u.id = uid then { u with password_hash := hash new_password }
              else u) hu
            rw [hfu] at hmem
            have := hnone' _ hmem
            simp at this
        · intro pw now'
          unfold reset_password
          rw [hnone now']
  · intro h
    unfold reset_password
    rw [h]
  · intro b s' h hb
    subst hb
    unfold reset_password at h
    cases hv : verify_reset_token token now s with
    | none =>
      rw [hv] at h
      exact (((Prod.mk.injEq ..).mp h).2).symm
    | some uid =>
      rw [hv] at h
      dsimp only at h
      by_cases h0 : uid = 0
      · rw [if_pos h0] at h
        exact (((Prod.mk.injEq ..).mp h).2).symm
      · rw [if_neg h0] at h
        simp at h

/-- Witness for `reset_password_transactional`: resetting with the live
token of `exampleResetStore` succeeds, after which the token no longer
verifies, a second reset fails, and the account verifies with the new
password. -/
theorem reset_password_transactional_witness :
    (reset_password exampleHash ['T'] ['q'] 101 exampleResetStore).1 = true ∧
    verify_reset_token ['T'] 500
      (reset_password exampleHash ['T'] ['q'] 101 exampleResetStore).2 = none ∧
    reset_password exampleHash ['T'] ['r'] 500
      (reset_password exampleHash ['T'] ['q'] 101 exampleResetStore).2 =
      (false, (reset_password exampleHash ['T'] ['q'] 101 exampleResetStore).2) ∧
    verify_user exampleHash ['a'] ['q']
      (reset_password exampleHash ['T'] ['q'] 101 exampleResetStore).2 ≠
      none := by
  obtain ⟨uid, -, hv, hupd, -, hnone, hfail⟩ :=
    (reset_password_transactional exampleHash ['T'] ['q'] 101
      exampleResetStore).1
      (reset_password exampleHash ['T'] ['q'] 101 exampleResetStore).2
      (by decide)
  have h1 : verify_reset_token ['T'] 101 exampleResetStore = some 1 := by
    decide
  have huid : (1 : Nat) = uid := Option.some.inj (h1 ▸ hv)
  exact ⟨by decide, hnone 500, hfail ['r'] 500,
    (hupd ⟨1, ['a'], ['e'], exampleHash ['p']⟩ (by decide) huid).2⟩

/-! ### C9: shape and order of the `get_tasks` result -/

/-- C9: `get_tasks` returns exactly the account's tasks, in ascending id
order — the order SQLite emits the `GROUP BY t.id` groups in, which for
`AUTOINCREMENT` ids is creation order — each converted to its snapshot by
`taskView` (which carries the resolved tag list), and returns the empty
sequence when the account has no tasks. -/
theorem get_tasks_ordered (user_id : Nat) (s : Store) (hWF : s.WF) :
    ((get_tasks user_id s).map TaskView.id).Pairwise (· < ·) ∧
    (∀ v ∈ get_tasks user_id s,
      ∃ t ∈ s.tasks, t.user_id = user_id ∧ taskView s t = v) ∧
    (∀ t ∈ s.tasks, t.user_id = user_id →
      taskView s t ∈ get_tasks user_id s) ∧
    ((∀ t ∈ s.tasks, t.user_id ≠ user_id) → get_tasks user_id s = []) := by
  obtain ⟨-, -, -, -, -, hsorted, -⟩ := hWF
  refine ⟨?_, ?_, ?_, ?_⟩
  · have hmm : (get_tasks user_id s).map TaskView.id =
        (s.tasks.filter fun t => decide (t.user_id = user_id)).map Task.id := by
      unfold get_tasks
      rw [List.map_map]
      rfl
    rw [hmm]
    exact hsorted.sublist (List.Sublist.map _ (List.filter_sublist s.tasks))
  · intro v hv
    obtain ⟨t, ht, rfl⟩ := List.mem_map.mp hv
    have hft := List.mem_filter.mp ht
    exact ⟨t, hft.1, by simpa using hft.2, rfl⟩
  · intro t ht hu
    exact List.mem_map_of_mem _ (List.mem_filter.mpr ⟨ht, by simp [hu]⟩)
  · intro h
    unfold get_tasks
    have hnil : (s.tasks.filter fun t => decide (t.user_id = user_id)) = [] := by
      rw [List.filter_eq_nil_iff]
      intro t ht
      simp [h t ht]
    rw [hnil]
    rfl

/-- Witness for `get_tasks_ordered`: the single-task store `exampleTagged`
lists account 1's task ids in increasing order and yields the empty
sequence for the task-less account 2. -/
theorem get_tasks_ordered_witness :
    ((get_tasks 1 exampleTagged).map TaskView.id).Pairwise (· < ·) ∧
    get_tasks 2 exampleTagged = [] := by
  obtain ⟨h1, -, -, -⟩ := get_tasks_ordered 1 exampleTagged (by decide)
  obtain ⟨-, -, -, h4⟩ := get_tasks_ordered 2 exampleTagged (by decide)
  exact ⟨h1, h4 (by decide)⟩

/-! ### C10: the comma join/split on the task read path -/

/-- C10: every returned task's tag list is the comma-resplit of the
comma-join of its linked tag names — equal to the linked names themselves
when none contains a comma, while a linked name containing a comma never
comes back itself: only its comma-separated pieces do. -/
theorem get_tasks_tags_comma_split (user_id : Nat) (s : Store) :
    ∀ v ∈ get_tasks user_id s,
      (joinComma (linkedNames s v.id) ≠ [] →
        v.tags = (linkedNames s v.id).flatMap splitComma) ∧
      ((∀ n ∈ linkedNames s v.id, ',' ∉ n) →
        joinComma (linkedNames s v.id) ≠ [] →
        v.tags = linkedNames s v.id) ∧
      (∀ n ∈ linkedNames s v.id, ',' ∈ n →
        n ∉ v.tags ∧ ∀ p ∈ splitComma n, p ∈ v.tags) := by
  intro v hv
  obtain ⟨t, ht, rfl⟩ := List.mem_map.mp hv
  show (joinComma (linkedNames s t.id) ≠ [] →
      tagsField (linkedNames s t.id) = (linkedNames s t.id).flatMap splitComma) ∧
    ((∀ n ∈ linkedNames s t.id, ',' ∉ n) → joinComma (linkedNames s t.id) ≠ [] →
      tagsField (linkedNames s t.id) = linkedNames s t.id) ∧
    (∀ n ∈ linkedNames s t.id, ',' ∈ n →
      n ∉ tagsField (linkedNames s t.id) ∧
      ∀ p ∈ splitComma n, p ∈ tagsField (linkedNames s t.id))
  have hflat : joinComma (linkedNames s t.id) ≠ [] →
      tagsField (linkedNames s t.id) = (linkedNames s t.id).flatMap splitComma := by
    intro hne
    have hLne : linkedNames s t.id ≠ [] := by
      intro h
      exact hne (by rw [h]; rfl)
    unfold tagsField
    rw [if_neg hne, splitComma_joinComma hLne]
  refine ⟨hflat, ?_, ?_⟩
  · intro hfree hne
    rw [hflat hne, flatMap_splitComma_eq_self hfree]
  · intro n hn hcomma
    have hnne : n ≠ [] := List.ne_nil_of_mem hcomma
    have hLne : linkedNames s t.id ≠ [] := List.ne_nil_of_mem hn
    have hjne : joinComma (linkedNames s t.id) ≠ [] := by
      intro he
      rcases (joinComma_eq_nil_iff _).mp he with h | h
      · exact hLne h
      · rw [h] at hn
        exact hnne (List.mem_singleton.mp hn)
    constructor
    · intro hmem
      rw [hflat hjne] at hmem
      obtain ⟨m, -, hpm⟩ := List.mem_flatMap.mp hmem
      exact splitComma_mem_no_comma hpm hcomma
    · intro p hp
      rw [hflat hjne]
      exact List.mem_flatMap.mpr ⟨n, hn, hp⟩

/-- Witness for `get_tasks_tags_comma_split`: in `exampleCommaTagged` the
task linked to the single tag name `"a,b"` comes back without that name
among its tags, while the piece `"a"` is present. -/
theorem get_tasks_tags_comma_split_witness :
    ['a', ',', 'b'] ∉
      (taskView exampleCommaTagged
        ⟨1, 1, ['m'], none, none, none, none, false⟩).tags ∧
    ['a'] ∈
      (taskView exampleCommaTagged
        ⟨1, 1, ['m'], none, none, none, none, false⟩).tags := by
  have h := get_tasks_tags_comma_split 1 exampleCommaTagged
    (taskView exampleCommaTagged ⟨1, 1, ['m'], none, none, none, none, false⟩)
    (by decide)
  have h3 := h.2.2 ['a', ',', 'b'] (by decide) (by decide)
  exact ⟨h3.1, h3.2 ['a'] (by decide)⟩

/-! ### C8: the tag loop of `add_task` and the read path -/

theorem flatMap_congr_mem {α β : Type} {l : List α} {f g : α → List β}
    (h : ∀ a ∈ l, f a = g a) : l.flatMap f = l.flatMap g := by
  induction l with
  | nil => rfl
  | cons a l ih =>
    rw [List.flatMap_cons, List.flatMap_cons, h a (List.mem_cons_self a l),
      ih fun b hb => h b (List.mem_cons_of_mem a hb)]

/-- One pass of the get-or-create-and-link loop: it preserves the tag
invariant and everything outside the `tags`/`task_tags` tables, adds exactly
the processed name to the linked names of the task being built, and makes a
`(user_id, name)` tag row exist exactly for the previous names plus the
processed one. -/
theorem addTagLink_spec (uid tid : Nat) (n : Str) (s : Store)
    (hInv : TagInv s) :
    TagInv (addTagLink uid tid n s) ∧
    (addTagLink uid tid n s).users = s.users ∧
    (addTagLink uid tid n s).tokens = s.tokens ∧
    (addTagLink uid tid n s).tasks = s.tasks ∧
    (addTagLink uid tid n s).next_task_id = s.next_task_id ∧
    (∀ x, x ∈ linkedNames (addTagLink uid tid n s) tid ↔
      x ∈ linkedNames s tid ∨ x = n) ∧
    (∀ x, (∃ t ∈ (addTagLink uid tid n s).tags, t.user_id = uid ∧ t.name = x) ↔
      (∃ t ∈ s.tags, t.user_id = uid ∧ t.name = x) ∨ x = n) := by
  obtain ⟨hnodup, hlt, huniq, hlink⟩ := hInv
  by_cases hex : ∃ t ∈ s.tags, t.user_id = uid ∧ t.name = n
  · -- the tag row already exists: `INSERT OR IGNORE` is a no-op
    have hens : ensureTag uid n s = s := by
      unfold ensureTag
      rw [if_pos hex]
    have hsome : (s.tags.find? fun t =>
        decide (t.user_id = uid ∧ t.name = n)).isSome := by
      rw [List.find?_isSome]
      obtain ⟨t, ht, h1, h2⟩ := hex
      exact ⟨t, ht, by simp [h1, h2]⟩
    obtain ⟨t₀, hfind⟩ := Option.isSome_iff_exists.mp hsome
    have hmem₀ := List.mem_of_find?_eq_some hfind
    have hpred₀ := List.find?_some hfind
    simp only [decide_eq_true_iff] at hpred₀
    have haddeq : addTagLink uid tid n s =
        if ∃ l ∈ s.task_tags, l.task_id = tid ∧ l.tag_id = t₀.id then s
        else { s with task_tags := s.task_tags ++ [⟨tid, t₀.id⟩] } := by
      unfold addTagLink
      rw [hens]
      dsimp only
      rw [hfind]
    by_cases hlex : ∃ l ∈ s.task_tags, l.task_id = tid ∧ l.tag_id = t₀.id
    · -- the link also exists already: everything is a no-op
      rw [if_pos hlex] at haddeq
      rw [haddeq]
      have hmemn : n ∈ linkedNames s tid := by
        obtain ⟨l, hl, hl1, hl2⟩ := hlex
        unfold linkedNames
        rw [List.mem_flatMap]
        refine ⟨l, List.mem_filter.mpr ⟨hl, by simp [hl1]⟩, ?_⟩
        rw [List.mem_map]
        exact ⟨t₀, List.mem_filter.mpr ⟨hmem₀, by simp [hl2]⟩, hpred₀.2⟩
      refine ⟨⟨hnodup, hlt, huniq, hlink⟩, rfl, rfl, rfl, rfl, ?_, ?_⟩
      · intro x
        constructor
        · exact Or.inl
        · rintro (hx | rfl)
          · exact hx
          · exact hmemn
      · intro x
        constructor
        · exact Or.inl
        · rintro (hx | rfl)
          · exact hx
          · exact ⟨t₀, hmem₀, hpred₀⟩
    · -- fresh link to the existing tag row
      rw [if_neg hlex] at haddeq
      rw [haddeq]
      refine ⟨⟨hnodup, hlt, huniq, ?_⟩, rfl, rfl, rfl, rfl, ?_, ?_⟩
      · intro l hl
        rcases List.mem_append.mp hl with h | h
        · exact hlink l h
        · obtain rfl := List.mem_singleton.mp h
          exact hlt t₀ hmem₀
      · intro x
        unfold linkedNames
        dsimp only
        rw [List.filter_append, List.flatMap_append]
        have hfil : ([(⟨tid, t₀.id⟩ : TaskTag)].filter fun l =>
            decide (l.task_id = tid)) = [⟨tid, t₀.id⟩] := by simp
        rw [hfil]
        have hres : ([(⟨tid, t₀.id⟩ : TaskTag)].flatMap fun l =>
            (s.tags.filter fun t => decide (t.id = l.tag_id)).map TagRow.name) =
            [t₀.name] := by
          simp only [List.flatMap_cons, List.flatMap_nil, List.append_nil]
          rw [filter_eq_single_of_nodup_map TagRow.id hnodup hmem₀]
          rfl
        rw [hres, hpred₀.2]
        simp [List.mem_append]
      · intro x
        constructor
        · exact Or.inl
        · rintro (hx | rfl)
          · exact hx
          · exact ⟨t₀, hmem₀, hpred₀⟩
  · -- the tag row is freshly inserted, then linked
    have hens : ensureTag uid n s = { s with
        tags := s.tags ++ [⟨s.next_tag_id, uid, n⟩],
        next_tag_id := s.next_tag_id + 1 } := by
      unfold ensureTag
      rw [if_neg hex]
    have hfindold : (s.tags.find? fun t =>
        decide (t.user_id = uid ∧ t.name = n)) = none := by
      rw [List.find?_eq_none]
      intro x hx
      simp only [decide_eq_true_iff]
      rintro ⟨h1, h2⟩
      exact hex ⟨x, hx, h1, h2⟩
    have hfind : ((s.tags ++ [(⟨s.next_tag_id, uid, n⟩ : TagRow)]).find? fun t =>
        decide (t.user_id = uid ∧ t.name = n)) =
        some (⟨s.next_tag_id, uid, n⟩ : TagRow) := by
      rw [List.find?_append, hfindold]
      simp
    have hlexfalse : ¬ ∃ l ∈ s.task_tags, l.task_id = tid ∧
        l.tag_id = s.next_tag_id := by
      rintro ⟨l, hl, -, hl2⟩
      exact absurd (hlink l hl) (by rw [hl2]; exact lt_irrefl _)
    have haddeq : addTagLink uid tid n s = { s with
        tags := s.tags ++ [⟨s.next_tag_id, uid, n⟩],
        next_tag_id := s.next_tag_id + 1,
        task_tags := s.task_tags ++ [⟨tid, s.next_tag_id⟩] } := by
      unfold addTagLink
      rw [hens]
      dsimp only
      rw [hfind]
      dsimp only
      rw [if_neg hlexfalse]
    rw [haddeq]
    refine ⟨⟨?_, ?_, ?_, ?_⟩, rfl, rfl, rfl, rfl, ?_, ?_⟩
    · rw [List.map_append, List.nodup_append]
      refine ⟨hnodup, by simp, ?_⟩
      intro a ha hb
      obtain rfl : a = s.next_tag_id := by simpa using hb
      obtain ⟨t, ht, hta⟩ := List.mem_map.mp ha
      exact absurd (hta ▸ hlt t ht) (lt_irrefl _)
    · intro t ht
      rcases List.mem_append.mp ht with h | h
      · exact Nat.lt_succ_of_lt (hlt t h)
      · obtain rfl := List.mem_singleton.mp h
        exact Nat.lt_succ_self _
    · intro t₁ h₁ t₂ h₂ hu hn'
      rcases List.mem_append.mp h₁ with h₁' | h₁' <;>
        rcases List.mem_append.mp h₂ with h₂' | h₂'
      · exact huniq t₁ h₁' t₂ h₂' hu hn'
      · obtain rfl := List.mem_singleton.mp h₂'
        exact absurd ⟨t₁, h₁', hu, hn'⟩ hex
      · obtain rfl := List.mem_singleton.mp h₁'
        exact absurd ⟨t₂, h₂', hu.symm, hn'.symm⟩ hex
      · obtain rfl := List.mem_singleton.mp h₁'
        obtain rfl := List.mem_singleton.mp h₂'
        rfl
    · intro l hl
      rcases List.mem_append.mp hl with h | h
      · exact Nat.lt_succ_of_lt (hlink l h)
      · obtain rfl := List.mem_singleton.mp h
        exact Nat.lt_succ_self _
    · intro x
      unfold linkedNames
      dsimp only
      rw [List.filter_append, List.flatMap_append]
      have hfil : ([(⟨tid, s.next_tag_id⟩ : TaskTag)].filter fun l =>
          decide (l.task_id = tid)) = [⟨tid, s.next_tag_id⟩] := by simp
      rw [hfil]
      have hold : ((s.task_tags.filter fun l =>
          decide (l.task_id = tid)).flatMap fun l =>
          ((s.tags ++ [(⟨s.next_tag_id, uid, n⟩ : TagRow)]).filter fun t =>
            decide (t.id = l.tag_id)).map TagRow.name) =
          ((s.task_tags.filter fun l =>
          decide (l.task_id = tid)).flatMap fun l =>
          (s.tags.filter fun t => decide (t.id = l.tag_id)).map TagRow.name) := by
        apply flatMap_congr_mem
        intro l hl
        have hlmem := (List.mem_filter.mp hl).1
        have hne : (⟨s.next_tag_id, uid, n⟩ : TagRow).id ≠ l.tag_id :=
          (hlink l hlmem).ne'
        rw [List.filter_append]
        have hone : ([(⟨s.next_tag_id, uid, n⟩ : TagRow)].filter fun t =>
            decide (t.id = l.tag_id)) = [] := by
          simp [hne]
        rw [hone, List.append_nil]
      have hnew : ([(⟨tid, s.next_tag_id⟩ : TaskTag)].flatMap fun l =>
          ((s.tags ++ [(⟨s.next_tag_id, uid, n⟩ : TagRow)]).filter fun t =>
            decide (t.id = l.tag_id)).map TagRow.name) = [n] := by
        simp only [List.flatMap_cons, List.flatMap_nil, List.append_nil]
        rw [List.filter_append]
        have h1 : (s.tags.filter fun t =>
            decide (t.id = (⟨tid, s.next_tag_id⟩ : TaskTag).tag_id)) = [] := by
          rw [List.filter_eq_nil_iff]
          intro t ht
          simp [(hlt t ht).ne]
        have h2 : ([(⟨s.next_tag_id, uid, n⟩ : TagRow)].filter fun t =>
            decide (t.id = (⟨tid, s.next_tag_id⟩ : TaskTag).tag_id)) =
            [⟨s.next_tag_id, uid, n⟩] := by simp
        rw [h1, h2]
        rfl
      rw [hold, hnew]
      simp [List.mem_append]
    · intro x
      constructor
      · rintro ⟨t, ht, h1, h2⟩
        rcases List.mem_append.mp ht with h | h
        · exact Or.inl ⟨t, h, h1, h2⟩
        · obtain rfl := List.mem_singleton.mp h
          exact Or.inr h2.symm
      · rintro (⟨t, ht, h1, h2⟩ | hxn)
        · exact ⟨t, List.mem_append_left _ ht, h1, h2⟩
        · exact ⟨⟨s.next_tag_id, uid, n⟩,
            List.mem_append_right _ (List.mem_singleton_self _), rfl, hxn.symm⟩

/-- The whole tag loop of `add_task`, folded over the supplied tag list:
linked names accumulate exactly the processed names, `(user_id, name)` rows
exist exactly for previous names plus the processed ones, and nothing
outside the two tag tables changes. -/
theorem foldTags_spec (uid tid : Nat) (names : List Str) :
    ∀ s : Store, TagInv s →
      TagInv (names.foldl (fun acc n => addTagLink uid tid n acc) s) ∧
      (names.foldl (fun acc n => addTagLink uid tid n acc) s).users = s.users ∧
      (names.foldl (fun acc n => addTagLink uid tid n acc) s).tokens =
        s.tokens ∧
      (names.foldl (fun acc n => addTagLink uid tid n acc) s).tasks =
        s.tasks ∧
      (names.foldl (fun acc n => addTagLink uid tid n acc) s).next_task_id =
        s.next_task_id ∧
      (∀ x, x ∈ linkedNames
          (names.foldl (fun acc n => addTagLink uid tid n acc) s) tid ↔
        x ∈ linkedNames s tid ∨ x ∈ names) ∧
      (∀ x, (∃ t ∈ (names.foldl (fun acc n => addTagLink uid tid n acc) s).tags,
          t.user_id = uid ∧ t.name = x) ↔
        (∃ t ∈ s.tags, t.user_id = uid ∧ t.name = x) ∨ x ∈ names) := by
  induction names with
  | nil =>
    intro s h
    refine ⟨h, rfl, rfl, rfl, rfl, ?_, ?_⟩
    · intro x
      simp
    · intro x
      simp
  | cons n names ih =>
    intro s h
    rw [List.foldl_cons]
    obtain ⟨hInv', hu, htok, hta, hnt, hlin, htag⟩ := addTagLink_spec uid tid n s h
    obtain ⟨ih1, ih2, ih3, ih4, ih5, ih6, ih7⟩ :=
      ih (addTagLink uid tid n s) hInv'
    refine ⟨ih1, ih2.trans hu, ih3.trans htok, ih4.trans hta, ih5.trans hnt,
      ?_, ?_⟩
    · intro x
      rw [ih6 x, hlin x, List.mem_cons]
      exact or_assoc
    · intro x
      rw [ih7 x, htag x, List.mem_cons]
      exact or_assoc

/-- C8 counterexample: the task of `exampleCommaTagged` was created with the
tag list `["a,b"]`, but the subsequent read returns the tag list
`["a", "b"]` — the comma-containing name itself is not among the returned
tags, so the returned tag set is not exactly the supplied list. -/
theorem add_task_comma_tag_counterexample :
    (get_tasks 1 exampleCommaTagged).map TaskView.tags = [[['a'], ['b']]] ∧
    ∀ v ∈ get_tasks 1 exampleCommaTagged, ['a', ',', 'b'] ∉ v.tags := by
  decide

/-- C8 (amended): for every well-formed store and every task created with a
tag list `T` whose names are nonempty and comma-free, the next `list_tasks`
read returns that task with tag set exactly `T` (order-independent), and
`list_tags` for that account returns a superset containing every element of
`T`. -/
theorem add_task_tag_roundtrip (user_id : Nat) (d : TaskData) (s : Store)
    (hWF : s.WF) (hnames : ∀ n ∈ d.tags, n ≠ [] ∧ ',' ∉ n) :
    ∃ tid s', add_task user_id d s = (some tid, s') ∧
      ∃ v ∈ get_tasks user_id s', v.id = tid ∧
        (∀ x, x ∈ v.tags ↔ x ∈ d.tags) ∧
        ∀ x ∈ d.tags, x ∈ get_all_tags user_id s' := by
  obtain ⟨-, -, -, -, -, -, htask, hnodup, hlt, huniq, hlink⟩ := hWF
  refine ⟨s.next_task_id, (add_task user_id d s).2, rfl, ?_⟩
  have hInv₁ : TagInv { s with
      tasks := s.tasks ++
        [⟨s.next_task_id, user_id, d.title, d.description, d.category,
          d.due_date, d.priority, false⟩],
      next_task_id := s.next_task_id + 1 } :=
    ⟨hnodup, hlt, huniq, fun l hl => (hlink l hl).2⟩
  obtain ⟨-, -, -, hta, -, hlin, htag⟩ :=
    foldTags_spec user_id s.next_task_id d.tags _ hInv₁
  have hempty : linkedNames { s with
      tasks := s.tasks ++
        [⟨s.next_task_id, user_id, d.title, d.description, d.category,
          d.due_date, d.priority, false⟩],
      next_task_id := s.next_task_id + 1 } s.next_task_id = [] := by
    unfold linkedNames
    dsimp only
    have hfil : (s.task_tags.filter fun l =>
        decide (l.task_id = s.next_task_id)) = [] := by
      rw [List.filter_eq_nil_iff]
      intro l hl
      simp [(hlink l hl).1.ne]
    rw [hfil]
    rfl
  have hnewmem : (⟨s.next_task_id, user_id, d.title, d.description,
      d.category, d.due_date, d.priority, false⟩ : Task) ∈
      (add_task user_id d s).2.tasks := by
    show _ ∈ (d.tags.foldl (fun acc n => addTagLink user_id s.next_task_id n acc) _).tasks
    rw [hta]
    exact List.mem_append_right _ (List.mem_singleton_self _)
  refine ⟨taskView (add_task user_id d s).2
      ⟨s.next_task_id, user_id, d.title, d.description, d.category,
        d.due_date, d.priority, false⟩,
    List.mem_map_of_mem _ (List.mem_filter.mpr ⟨hnewmem, by simp⟩), rfl,
    ?_, ?_⟩
  · intro x
    have hchar : ∀ y, y ∈ linkedNames (add_task user_id d s).2 s.next_task_id ↔
        y ∈ d.tags := by
      intro y
      rw [show linkedNames (add_task user_id d s).2 s.next_task_id =
          linkedNames (d.tags.foldl
            (fun acc n => addTagLink user_id s.next_task_id n acc) _)
            s.next_task_id from rfl,
        hlin y, hempty]
      simp
    show x ∈ tagsField (linkedNames (add_task user_id d s).2 s.next_task_id) ↔
      x ∈ d.tags
    rw [tagsField_eq_self fun n hn => hnames n ((hchar n).mp hn)]
    exact hchar x
  · intro x hx
    obtain ⟨t, ht, h1, h2⟩ := (htag x).mpr (Or.inr hx)
    unfold get_all_tags
    rw [List.mem_map]
    exact ⟨t, List.mem_filter.mpr ⟨ht, by simp [h1]⟩, h2⟩

/-- Witness for `add_task_tag_roundtrip`: creating a task with the tag list
`["x", "y"]` in `exampleUserStore`. -/
theorem add_task_tag_roundtrip_witness :
    ∃ tid s', add_task 1 ⟨['t'], none, none, none, none, [['x'], ['y']]⟩
        exampleUserStore = (some tid, s') ∧
      ∃ v ∈ get_tasks 1 s', v.id = tid ∧
        (∀ x, x ∈ v.tags ↔ x ∈ [['x'], ['y']]) ∧
        ∀ x ∈ [['x'], ['y']], x ∈ get_all_tags 1 s' :=
  add_task_tag_roundtrip 1 ⟨['t'], none, none, none, none, [['x'], ['y']]⟩
    exampleUserStore (by decide) (by decide)

end TodoDB
